import Mathlib

/-!
# catgen: resolution of a driver-package descriptor (`parse_inf`)

Shallow embedding of `src/catgen/catgen.c`.

The program reads an INF file through the Windows SetupAPI and collects the
files named by the `CopyFiles` directives of the install sections of every
device description, plus the first hardware id it meets.

Modelling conventions
* A C string is a Lean `String` (a sequence of characters without NUL); a
  `NULL` pointer is `none`.  The UTF-16 / UTF-8 conversions are the identity
  on such abstract strings and map `NULL` to `NULL`.
* The loaded INF (`HINF`) is the value `Inf`: the ordered list of its sections,
  each with its ordered lines; a line has an optional key (field 0) and the
  values after it (fields 1..n).  The SetupAPI entry points used by the
  program are functions over that value.
* A `do { ... } while (SetupFindNextMatchLineW(...))` loop that starts from a
  successful `SetupFindFirstLineW` visits the matching lines of the section
  in order; it is a structural recursion over that list of lines.
* `cat_list` together with `*cat_list_idx` is the list of the entries stored
  so far: a store at index `*cat_list_idx` followed by `(*cat_list_idx)++`
  appends one entry.  The entry count is the length of the list.
* Dereferencing `NULL` has no result: the functions return `none` there.
* Names compared by SetupAPI are equal up to the case of ASCII letters.
* `SetupFindLines` stands for the pair `SetupFindFirstLineW` /
  `SetupFindNextMatchLineW`, `wide_to_utf8` for `_wide_to_utf8`.
* Section names are at most 255 characters (SetupAPI), hence the scratch
  buffer `bufW` holds every enumerated name.  The buffer `model` is built from
  fields, which have no such bound: a name that does not fit it has no result.
-/

namespace Catgen

/-! ## The descriptor and the SetupAPI functions used by the program -/

/-- One line of a section: `key` is field 0 (absent when the line has no key),
`fields` are the fields 1, 2, ... in order. -/
structure InfLine where
  key : Option String
  fields : List String
deriving DecidableEq, Repr

/-- A named section with its lines in file order. -/
structure InfSection where
  name : String
  lines : List InfLine
deriving DecidableEq, Repr

/-- A loaded INF file: its sections in enumeration order. -/
abbrev Inf := List InfSection

/-- The characters of a string with the ASCII letters folded to lower case. -/
def fold_case (s : String) : List Char := s.data.map Char.toLower

/-- Case-insensitive equality of names, as SetupAPI compares section names and keys. -/
def name_eq (a b : String) : Bool := fold_case a == fold_case b

/-- `SetupGetFieldCount`: the number of fields of the line, the key not counted. -/
def SetupGetFieldCount (c : InfLine) : Nat := c.fields.length

/-- `pSetupGetField`: field 0 is the key, field `i ≥ 1` the `i`-th value; `NULL`
when the line has no such field. -/
def pSetupGetField (c : InfLine) (index : Nat) : Option String :=
  match index with
  | 0 => c.key
  | i + 1 => c.fields.get? i

/-- The section a name denotes: the first section whose name is equal up to case. -/
def find_section (hinf : Inf) (name : String) : Option InfSection :=
  hinf.find? (fun s => name_eq s.name name)

/-- Whether the line has the given key (compared up to case). -/
def line_has_key (key : String) (c : InfLine) : Bool :=
  match c.key with
  | some k => name_eq k key
  | none => false

/-- The lines visited by `SetupFindFirstLineW (hinf, section, key)` followed by
`SetupFindNextMatchLineW (., key)` until it fails.  The list is empty exactly
when `SetupFindFirstLineW` fails: the section is absent or has no such line. -/
def SetupFindLines (hinf : Inf) (sect : String) (key : Option String) : List InfLine :=
  match find_section hinf sect with
  | none => []
  | some s =>
    match key with
    | none => s.lines
    | some k => s.lines.filter (line_has_key k)

/-- The names `SetupEnumInfSectionsW` returns for the indices 0, 1, ... until
`ERROR_NO_MORE_ITEMS`. -/
def SetupEnumInfSections (hinf : Inf) : List String := hinf.map InfSection.name

/-- `_wide_to_utf8`: `NULL` for `NULL`, else the same string. -/
def wide_to_utf8 (ws : Option String) : Option String := ws

/-! ## The install-section matcher (catgen.c, lines 339-342) -/

/-- `wcsncmp (a, b, n) == 0`: the first `n` characters agree, the comparison
stopping at a common end of string. -/
def wcsncmp_eq : List Char → List Char → Nat → Bool
  | _, _, 0 => true
  | [], [], _ + 1 => true
  | a :: as, b :: bs, n + 1 => a == b && wcsncmp_eq as bs n
  | _, _, _ + 1 => false

/-- The character `s[i]` of a C string; the terminating NUL is `none`. -/
def wchar_at (s : String) (i : Nat) : Option Char := s.data.get? i

/-- The two tests of the enumeration loop: a section name `bufW` passes when
neither `continue` is taken. -/
def is_install_section (bufW inst : String) : Bool :=
  if !wcsncmp_eq bufW.data inst.data inst.length then false
  else
    match wchar_at bufW inst.length with
    | none => true
    | some ch => if ch != '.' then false else true

/-! ## The walk of `parse_inf` (catgen.c, lines 253-390) -/

/-- The output storage `cat_list` up to `*cat_list_idx`: the entries stored so far
(an entry is `NULL` when `_wide_to_utf8` was handed `NULL`). -/
abbrev CatList := List (Option String)

/-- The two outputs the walk updates through its pointer arguments. -/
structure Acc where
  cat_list : CatList
  hw_id : Option String
deriving DecidableEq, Repr

/-- What `parse_inf` hands back: its return value and the two outputs. -/
structure ParseResult where
  rc : Nat
  cat_list : CatList
  hw_id : Option String
deriving DecidableEq, Repr

/-- A loop of the walk over the items it visits, in order: the body runs on each
item in turn, and a pass that has no result ends the run without result. -/
def run_loop {α σ : Type} (body : α → σ → Option σ) : List α → σ → Option σ
  | [], st => some st
  | x :: rest, st =>
    match body x st with
    | none => none
    | some st1 => run_loop body rest st1

/-- Lines 368-375: every line of the file-list section appends its field 1. -/
def files_loop : List InfLine → CatList → CatList
  | [], cat_list => cat_list
  | c_files :: rest, cat_list =>
    files_loop rest (cat_list ++ [wide_to_utf8 (pSetupGetField c_files 1)])

/-- Lines 353-376: one `CopyFiles` line.  `copy[0]` reads through `copy`, so a
line without field 1 has no result. -/
def copy_line (hinf : Inf) (c_copy : InfLine) (cat_list : CatList) : Option CatList :=
  match pSetupGetField c_copy 1 with
  | none => none
  | some copy =>
    if wchar_at copy 0 = some '@' then
      some (cat_list ++ [wide_to_utf8 (some (String.mk (copy.data.drop 1)))])
    else
      match SetupFindLines hinf copy none with
      | [] => some cat_list
      | c_files :: rest => some (files_loop (c_files :: rest) cat_list)

/-- Lines 352-378: the `CopyFiles` lines of one install section, in order. -/
def copy_loop (hinf : Inf) : List InfLine → CatList → Option CatList :=
  run_loop (copy_line hinf)

/-- Lines 337-378: the body of the enumeration loop for one section name.
`wcslen (inst)` reads through `inst`, so a description line without field 1
has no result. -/
def enum_step (hinf : Inf) (inst : Option String) (bufW : String) (cat_list : CatList) :
    Option CatList :=
  match inst with
  | none => none
  | some inst =>
    if !is_install_section bufW inst then some cat_list
    else
      match SetupFindLines hinf bufW (some "CopyFiles") with
      | [] => some cat_list
      | c_copy :: rest => copy_loop hinf (c_copy :: rest) cat_list

/-- Lines 328-379: the enumeration of all section names for one install base. -/
def enum_loop (hinf : Inf) (inst : Option String) : List String → CatList → Option CatList :=
  run_loop (enum_step hinf inst)

/-- Lines 322-323: `if ((*hw_id)[0] == '*') (*hw_id)++`. -/
def skip_star (h : String) : String :=
  if wchar_at h 0 = some '*' then String.mk (h.data.drop 1) else h

/-- Lines 320-324: the hardware id after a device-description line. -/
def update_hw_id (c_desc : InfLine) (hw_id : Option String) : Option (Option String) :=
  if SetupGetFieldCount c_desc ≥ 2 ∧ hw_id = none then
    match wide_to_utf8 (pSetupGetField c_desc 2) with
    | none => none
    | some h => some (some (skip_star h))
  else some hw_id

/-- Lines 316-379: one device-description line. -/
def desc_line (hinf : Inf) (c_desc : InfLine) (st : Acc) : Option Acc :=
  match update_hw_id c_desc st.hw_id with
  | none => none
  | some hw_id1 =>
    match enum_loop hinf (pSetupGetField c_desc 1) (SetupEnumInfSections hinf) st.cat_list with
    | none => none
    | some cat_list1 => some ⟨cat_list1, hw_id1⟩

/-- Lines 315-380: the lines of one model section, in order. -/
def desc_loop (hinf : Inf) : List InfLine → Acc → Option Acc :=
  run_loop (desc_line hinf)

/-- `LINE_LEN` of `setupapi.h`. -/
def LINE_LEN : Nat := 256

/-- The number of elements of `WCHAR model[LINE_LEN * 2 + 1 + 1]` (line 294). -/
def model_elems : Nat := LINE_LEN * 2 + 1 + 1

/-- `sizeof (model)`, the size in bytes (a `WCHAR` has 2 bytes), which lines
302-305 hand to `wcsncat_s` as the number of elements. -/
def sizeof_model : Nat := model_elems * 2

/-- `wcsncat_s (dst, numberOfElements, src, _TRUNCATE)` on a buffer of `elems`
elements that holds the string `dst`: as much of `src` is appended as
`numberOfElements` elements can hold with the terminating NUL.  When that string
and its NUL do not fit the `elems` elements the buffer really has, the store runs
past its end: there is no result. -/
def wcsncat_s (elems : Nat) (dst : String) (numberOfElements : Nat) (src : String) :
    Option String :=
  let written := (dst.data ++ src.data).take (numberOfElements - 1)
  if written.length < elems then some (String.mk written) else none

/-- Lines 288, 295-306: the name `model` built for field index `f` of a
Manufacturer line (`wcsncat_s` has no result for a `NULL` source, nor for a
string that does not fit `model`). -/
def model_name (c_man : InfLine) (f : Nat) : Option String :=
  let targetOSVersion := if f ≠ 1 then pSetupGetField c_man f else none
  match pSetupGetField c_man 1 with
  | none => none
  | some models_section_name =>
    match wcsncat_s model_elems "" sizeof_model models_section_name with
    | none => none
    | some model1 =>
      match targetOSVersion with
      | none => some model1
      | some t =>
        match wcsncat_s model_elems model1 sizeof_model "." with
        | none => none
        | some model2 => wcsncat_s model_elems model2 sizeof_model t

/-- Lines 310-380: the walk of the section named `model`; a name that has no line
is passed over (`continue`). -/
def model_section (hinf : Inf) (model : String) (st : Acc) : Option Acc :=
  match SetupFindLines hinf model none with
  | [] => some st
  | c_desc :: rest => desc_loop hinf (c_desc :: rest) st

/-- Lines 294-380: the body of the variant loop for field index `f`. -/
def variant_step (hinf : Inf) (c_man : InfLine) (f : Nat) (st : Acc) : Option Acc :=
  match model_name c_man f with
  | none => none
  | some model => model_section hinf model st

/-- Lines 293-381: the variant loop over the given field indices. -/
def variant_loop (hinf : Inf) (c_man : InfLine) : List Nat → Acc → Option Acc :=
  run_loop (variant_step hinf c_man)

/-- Lines 286, 290-291: the first field index of the variant loop. -/
def first_index (fc : Nat) : Nat := if 1 < fc then 2 else 1

/-- Lines 293: the values of `f` in `for (; f <= fc; f++)`. -/
def variant_indices (fc : Nat) : List Nat :=
  List.range' (first_index fc) (fc + 1 - first_index fc)

/-- The names `model` the variant loop of a Manufacturer line builds, in order. -/
def models_tried (c_man : InfLine) : List (Option String) :=
  (variant_indices (SetupGetFieldCount c_man)).map (model_name c_man)

/-- Lines 285-381: one Manufacturer line. -/
def man_line (hinf : Inf) (c_man : InfLine) (st : Acc) : Option Acc :=
  variant_loop hinf c_man (variant_indices (SetupGetFieldCount c_man)) st

/-- Lines 284-382: the lines of the Manufacturer section, in order. -/
def man_loop (hinf : Inf) : List InfLine → Acc → Option Acc :=
  run_loop (man_line hinf)

/-- `parse_inf`, given what `SetupOpenInfFileA (inf_name)` returned (`none` is
`INVALID_HANDLE_VALUE`).  The outer `none` is a run that reads through `NULL`. -/
def parse_inf (hinf : Option Inf) (cat_list : CatList) (hw_id : Option String) :
    Option ParseResult :=
  match hinf with
  | none => some ⟨0, cat_list, hw_id⟩
  | some hinf =>
    match SetupFindLines hinf "Manufacturer" none with
    | [] => some ⟨0, cat_list, hw_id⟩
    | c_man :: rest =>
      match man_loop hinf (c_man :: rest) ⟨cat_list, hw_id⟩ with
      | none => none
      | some st => some ⟨1, st.cat_list, st.hw_id⟩

/-! ## `main`: the file list handed to the catalog builder (catgen.c, lines 49-160) -/

/-- `CAT_LIST_MAX_ENTRIES` (line 32). -/
def CAT_LIST_MAX_ENTRIES : Nat := 128

/-- The number of slots of `cat_list[CAT_LIST_MAX_ENTRIES+1]` (line 54): a store is
inside the storage when its index is below this number. -/
def cat_list_slots : Nat := CAT_LIST_MAX_ENTRIES + 1

/-- The command line as `getopt_long` leaves it: the option arguments (`NULL` when
the option is not given) and the remaining arguments `argv[optind..]`. -/
structure Options where
  cat_path : Option String
  drv_path : Option String
  inf_file : Option String
  hw_id : Option String
  files : List String
deriving DecidableEq, Repr

/-- `strrchr (s, '/') + 1`: what follows the last `/`, `none` when there is no `/`. -/
def after_last_slash : List Char → Option (List Char)
  | [] => none
  | c :: cs =>
    match after_last_slash cs with
    | some t => some t
    | none => if c = '/' then some cs else none

/-- Lines 139-143: the name stored for a file argument. -/
def file_arg (arg : String) : String :=
  match after_last_slash arg.data with
  | some t => String.mk t
  | none => arg

/-- Lines 138-146: every remaining argument appends one entry. -/
def args_loop : List String → CatList → CatList
  | [], cat_list => cat_list
  | arg :: rest, cat_list => args_loop rest (cat_list ++ [some (file_arg arg)])

/-- Lines 117-129: the entries seeded before `parse_inf` and the path `p` it is
given (`NULL` when `inf_file` starts with a separator and has no `/`); character
92 is the backslash. -/
def seed_inf (drv_path inf_file : String) : CatList × Option String :=
  if wchar_at inf_file 0 ≠ some '/' ∧ wchar_at inf_file 0 ≠ some (Char.ofNat 92) then
    ([some inf_file], some (drv_path ++ "/" ++ inf_file))
  else
    match after_last_slash inf_file.data with
    | some t => ([some (String.mk t)], some inf_file)
    | none => ([], none)

/-- How a run of `main` ends. -/
inductive MainResult where
  /-- `usage ()`: exit code 1. -/
  | usage
  /-- `parse_inf` returned 0: exit code 1. -/
  | parse_failed
  /-- `CreateCatEx` is called with this hardware id and file list; it decides the
  exit code. -/
  | create_cat (hw_id : Option String) (cat_list : CatList)
deriving DecidableEq, Repr

/-- `main` after option parsing.  `open_inf` is `SetupOpenInfFileA` on a path. -/
def main (open_inf : String → Option Inf) (o : Options) : Option MainResult :=
  match o.drv_path, o.cat_path with
  | some drv_path, some _ =>
    match o.inf_file with
    | none => some (.create_cat o.hw_id (args_loop o.files []))
    | some inf_file =>
      let seed := seed_inf drv_path inf_file
      match parse_inf (seed.2.bind open_inf) seed.1 o.hw_id with
      | none => none
      | some r =>
        if r.rc = 0 then some .parse_failed
        else some (.create_cat r.hw_id (args_loop o.files r.cat_list))
  | _, _ => some .usage

/-! ## The resolution of `CopyFiles` directives, in the words of the specification -/

/-- The filenames a `CopyFiles` value stands for: the value without its leading
`@` when it starts with `@`; otherwise the field 1 of every line of the section
the value names, in line order, and nothing when there is no such section. -/
def directive_files (hinf : Inf) (value : String) : CatList :=
  if value.data.head? = some '@' then [some (String.mk value.data.tail)]
  else
    match find_section hinf value with
    | some s => s.lines.map (fun c => pSetupGetField c 1)
    | none => []

/-- The filenames of one `CopyFiles` line: those of its field 1. -/
def line_files (hinf : Inf) (c_copy : InfLine) : CatList :=
  match pSetupGetField c_copy 1 with
  | some value => directive_files hinf value
  | none => []

/-- The lines of section `N` keyed `CopyFiles`, in line order. -/
def copyfiles_lines (hinf : Inf) (N : String) : List InfLine :=
  match find_section hinf N with
  | some s => s.lines.filter (fun c => line_has_key "CopyFiles" c)
  | none => []

/-- The filenames of an install section: the concatenation of those of its
`CopyFiles` lines. -/
def section_files (hinf : Inf) (N : String) : CatList :=
  (copyfiles_lines hinf N).flatMap (line_files hinf)

/-! ## The walk order of the device-description lines -/

/-- The hardware id a device-description line offers: field 2 without one leading
`*` when the line has fields 1 and 2, nothing otherwise. -/
def line_hw_id (c_desc : InfLine) : Option String :=
  if 2 ≤ SetupGetFieldCount c_desc then (pSetupGetField c_desc 2).map skip_star else none

/-- The device-description lines visited for variant `f` of a Manufacturer line. -/
def variant_lines (hinf : Inf) (c_man : InfLine) (f : Nat) : List InfLine :=
  match model_name c_man f with
  | some model => SetupFindLines hinf model none
  | none => []

/-- The device-description lines visited for a Manufacturer line, variant by variant. -/
def man_desc_lines (hinf : Inf) (c_man : InfLine) : List InfLine :=
  (variant_indices (SetupGetFieldCount c_man)).flatMap (variant_lines hinf c_man)

/-- The device-description lines in walk order: Manufacturer line, then variant,
then line of the model section. -/
def walk_desc_lines (hinf : Inf) : List InfLine :=
  (SetupFindLines hinf "Manufacturer" none).flatMap (man_desc_lines hinf)

/-- The candidate model-section names of a Manufacturer line with field 1 `base`
and further fields `tags`, in the words of the specification. -/
def model_candidates (base : String) (tags : List String) : List String :=
  match tags with
  | [] => [base]
  | _ :: _ => tags.map (fun t => base ++ "." ++ t)

/-- Every candidate model-section name of the line fits the buffer `model`. -/
def line_fits (c_man : InfLine) : Bool :=
  match c_man.fields with
  | [] => true
  | base :: tags => (model_candidates base tags).all (fun m => m.length < model_elems)

/-- Every Manufacturer line has candidate names that fit the buffer `model`. -/
def model_names_fit (hinf : Inf) : Bool :=
  (SetupFindLines hinf "Manufacturer" none).all line_fits

/-- Every line of the descriptor has a field 1. -/
def lines_have_field1 (hinf : Inf) : Bool :=
  hinf.all (fun s => s.lines.all (fun c => (pSetupGetField c 1).isSome))

/-! ## Auxiliary definitions of the proofs -/

/-- The state with `pre` put in front of its file list. -/
def Acc.seed (pre : CatList) (st : Acc) : Acc := ⟨pre ++ st.cat_list, st.hw_id⟩

/-- The result with `pre` put in front of its file list. -/
def ParseResult.seed (pre : CatList) (r : ParseResult) : ParseResult :=
  ⟨r.rc, pre ++ r.cat_list, r.hw_id⟩

/-- The rest of the variant loop body once `model` is built. -/
def model_section_opt (hinf : Inf) (model : Option String) (st : Acc) : Option Acc :=
  match model with
  | none => none
  | some m => model_section hinf m st

/-! ## Concrete descriptors -/

/-- The descriptor of the end-to-end example. -/
def example_inf : Inf :=
  [ ⟨"Manufacturer", [⟨some "VendorX", ["ModelsX"]⟩]⟩,
    ⟨"ModelsX", [⟨some "Desc", ["Install1", "*HW001"]⟩]⟩,
    ⟨"Install1", [⟨some "CopyFiles", ["@driver.sys"]⟩, ⟨some "CopyFiles", ["Install1.Files"]⟩]⟩,
    ⟨"Install1.Files", [⟨some "", ["driver.cat"]⟩]⟩ ]

/-- A descriptor whose sections are spelled in upper case (`Models` apart) and
referred to in another case. -/
def case_inf : Inf :=
  [ ⟨"Manufacturer", [⟨some "Vendor", ["MODELS"]⟩]⟩,
    ⟨"Models", [⟨some "Device", ["foo", "HW"]⟩]⟩,
    ⟨"FOO", [⟨some "CopyFiles", ["@a.sys"]⟩]⟩,
    ⟨"FOO.NTamd64", [⟨some "CopyFiles", ["@b.sys"]⟩]⟩ ]

/-- A Manufacturer line whose decorated model name has 601 characters. -/
def long_man_line : InfLine :=
  ⟨some "Vendor", [String.mk (List.replicate 300 'a'), String.mk (List.replicate 300 'b')]⟩

/-- A descriptor for the `CopyFiles` resolution: a literal, a missing section, and a
file-list section. -/
def copyfiles_inf : Inf :=
  [ ⟨"Inst.NT", [⟨some "CopyFiles", ["@a.sys"]⟩, ⟨some "AddReg", ["Regs"]⟩,
                 ⟨some "copyfiles", ["Missing"]⟩, ⟨some "CopyFiles", ["Files"]⟩]⟩,
    ⟨"Files", [⟨none, ["b.dll"]⟩, ⟨none, ["c.cat", "src.cat"]⟩]⟩ ]

/-- A descriptor with two device-description lines that both carry a hardware id. -/
def two_ids_inf : Inf :=
  [ ⟨"Manufacturer", [⟨some "Vendor", ["Models", "NTamd64"]⟩]⟩,
    ⟨"Models.NTamd64", [⟨some "NoId", ["InstA"]⟩, ⟨some "First", ["InstA", "*HW1"]⟩,
                        ⟨some "Second", ["InstB", "HW2"]⟩]⟩,
    ⟨"InstA", [⟨some "CopyFiles", ["@a.sys"]⟩]⟩,
    ⟨"InstB", [⟨some "CopyFiles", ["@b.sys"]⟩]⟩ ]

/-- A descriptor whose install section copies a file-list section of 130 lines. -/
def overflow_inf : Inf :=
  [ ⟨"Manufacturer", [⟨some "Vendor", ["Models"]⟩]⟩,
    ⟨"Models", [⟨some "Device", ["Inst", "HW"]⟩]⟩,
    ⟨"Inst", [⟨some "CopyFiles", ["Files"]⟩]⟩,
    ⟨"Files", List.replicate 130 ⟨none, ["a.sys"]⟩⟩ ]

/-- A command line with 130 file arguments and no descriptor. -/
def overflow_options : Options :=
  ⟨some "out.cat", some "drv", none, none, List.replicate 130 "a.sys"⟩

set_option maxRecDepth 100000

/-! ## Loops -/

theorem run_loop_cons {α σ : Type} (body : α → σ → Option σ) (x : α) (rest : List α) (st : σ) :
    run_loop body (x :: rest) st = (body x st).bind (run_loop body rest) := by
  cases h : body x st <;> simp [run_loop, h]

/-- A change of the state that every pass commutes with commutes with the loop. -/
theorem run_loop_shift {α σ : Type} (body : α → σ → Option σ) (shift : σ → σ)
    (h : ∀ x st, body x (shift st) = (body x st).map shift) (xs : List α) (st : σ) :
    run_loop body xs (shift st) = (run_loop body xs st).map shift := by
  induction xs generalizing st with
  | nil => simp [run_loop]
  | cons x rest ih =>
    rw [run_loop_cons, run_loop_cons, h]
    cases body x st with
    | none => rfl
    | some st1 => simpa using ih st1

/-- A loop whose passes all have a result has a result. -/
theorem run_loop_isSome {α σ : Type} (body : α → σ → Option σ) (xs : List α)
    (h : ∀ x ∈ xs, ∀ st, (body x st).isSome = true) (st : σ) :
    (run_loop body xs st).isSome = true := by
  induction xs generalizing st with
  | nil => rfl
  | cons x rest ih =>
    rw [run_loop_cons]
    have hx := h x (List.mem_cons_self _ _) st
    cases hb : body x st with
    | none => simp [hb] at hx
    | some st1 =>
      exact ih (fun y hy => h y (List.mem_cons_of_mem _ hy)) st1

/-! ## The walk only appends to the file list -/

theorem files_loop_eq (ls : List InfLine) (cat_list : CatList) :
    files_loop ls cat_list = cat_list ++ ls.map (fun c => pSetupGetField c 1) := by
  induction ls generalizing cat_list with
  | nil => simp [files_loop]
  | cons c rest ih => simp [files_loop, ih, wide_to_utf8]

theorem copy_line_shift (hinf : Inf) (pre : CatList) (c : InfLine) (cat_list : CatList) :
    copy_line hinf c (pre ++ cat_list) = (copy_line hinf c cat_list).map (pre ++ ·) := by
  unfold copy_line
  cases pSetupGetField c 1 with
  | none => rfl
  | some copy =>
    by_cases h : wchar_at copy 0 = some '@'
    · simp [h]
    · simp only [h, if_false]
      cases SetupFindLines hinf copy none with
      | nil => rfl
      | cons c1 rest => simp [files_loop_eq]

theorem copy_loop_shift (hinf : Inf) (pre : CatList) (ls : List InfLine) (cat_list : CatList) :
    copy_loop hinf ls (pre ++ cat_list) = (copy_loop hinf ls cat_list).map (pre ++ ·) :=
  run_loop_shift (copy_line hinf) (pre ++ ·) (copy_line_shift hinf pre) ls cat_list

theorem enum_step_shift (hinf : Inf) (inst : Option String) (pre : CatList) (bufW : String)
    (cat_list : CatList) :
    enum_step hinf inst bufW (pre ++ cat_list) = (enum_step hinf inst bufW cat_list).map (pre ++ ·) := by
  unfold enum_step
  cases inst with
  | none => rfl
  | some inst =>
    by_cases h : is_install_section bufW inst = true
    · simp only [h, Bool.not_true, Bool.false_eq_true, if_false]
      cases SetupFindLines hinf bufW (some "CopyFiles") with
      | nil => rfl
      | cons c rest => exact copy_loop_shift hinf pre (c :: rest) cat_list
    · simp [h]

theorem enum_loop_shift (hinf : Inf) (inst : Option String) (pre : CatList) (ls : List String)
    (cat_list : CatList) :
    enum_loop hinf inst ls (pre ++ cat_list) = (enum_loop hinf inst ls cat_list).map (pre ++ ·) :=
  run_loop_shift (enum_step hinf inst) (pre ++ ·) (enum_step_shift hinf inst pre) ls cat_list

theorem desc_line_shift (hinf : Inf) (pre : CatList) (c : InfLine) (st : Acc) :
    desc_line hinf c (st.seed pre) = (desc_line hinf c st).map (Acc.seed pre) := by
  unfold desc_line
  simp only [Acc.seed]
  cases update_hw_id c st.hw_id with
  | none => rfl
  | some hw1 =>
    simp only [enum_loop_shift]
    cases enum_loop hinf (pSetupGetField c 1) (SetupEnumInfSections hinf) st.cat_list <;> rfl

theorem desc_loop_shift (hinf : Inf) (pre : CatList) (ls : List InfLine) (st : Acc) :
    desc_loop hinf ls (st.seed pre) = (desc_loop hinf ls st).map (Acc.seed pre) :=
  run_loop_shift (desc_line hinf) (Acc.seed pre) (desc_line_shift hinf pre) ls st

theorem variant_step_shift (hinf : Inf) (c_man : InfLine) (pre : CatList) (f : Nat) (st : Acc) :
    variant_step hinf c_man f (st.seed pre) = (variant_step hinf c_man f st).map (Acc.seed pre) := by
  unfold variant_step
  cases model_name c_man f with
  | none => rfl
  | some model =>
    simp only [model_section]
    cases SetupFindLines hinf model none with
    | nil => rfl
    | cons c rest => exact desc_loop_shift hinf pre (c :: rest) st

theorem man_line_shift (hinf : Inf) (pre : CatList) (c_man : InfLine) (st : Acc) :
    man_line hinf c_man (st.seed pre) = (man_line hinf c_man st).map (Acc.seed pre) :=
  run_loop_shift (variant_step hinf c_man) (Acc.seed pre) (variant_step_shift hinf c_man pre) _ st

theorem man_loop_shift (hinf : Inf) (pre : CatList) (ls : List InfLine) (st : Acc) :
    man_loop hinf ls (st.seed pre) = (man_loop hinf ls st).map (Acc.seed pre) :=
  run_loop_shift (man_line hinf) (Acc.seed pre) (man_line_shift hinf pre) ls st

/-- `parse_inf` on a seeded list is `parse_inf` on the empty list with the seeded
entries in front. -/
theorem parse_inf_seed (hinf : Option Inf) (S : CatList) (hw_id : Option String) :
    parse_inf hinf S hw_id = (parse_inf hinf [] hw_id).map (ParseResult.seed S) := by
  unfold parse_inf
  cases hinf with
  | none => simp [ParseResult.seed]
  | some hinf =>
    simp only
    cases SetupFindLines hinf "Manufacturer" none with
    | nil => simp [ParseResult.seed]
    | cons c rest =>
      simp only
      have h := man_loop_shift hinf S (c :: rest) ⟨[], hw_id⟩
      simp only [Acc.seed, List.append_nil] at h
      rw [h]
      cases man_loop hinf (c :: rest) ⟨[], hw_id⟩ <;> simp [ParseResult.seed, Acc.seed]

/-! ## The install-section matcher -/

theorem wcsncmp_eq_iff_starts (b a : List Char) :
    wcsncmp_eq a b b.length = true ↔ b <+: a := by
  induction b generalizing a with
  | nil => simp [wcsncmp_eq]
  | cons y ys ih =>
    cases a with
    | nil => simp [wcsncmp_eq]
    | cons x xs =>
      simp only [List.length_cons, wcsncmp_eq, Bool.and_eq_true, beq_iff_eq, ih,
        List.cons_prefix_cons]
      constructor <;> rintro ⟨h1, h2⟩ <;> exact ⟨h1.symm, h2⟩

theorem prefix_get?_none_iff (b a : List Char) (h : b <+: a) :
    a.get? b.length = none ↔ a = b := by
  obtain ⟨t, rfl⟩ := h
  cases t with
  | nil => simp
  | cons c cs => simp

theorem is_install_section_eq (N B : String) :
    is_install_section N B = true ↔
      (B.data <+: N.data ∧ (wchar_at N B.length = none ∨ wchar_at N B.length = some '.')) := by
  unfold is_install_section
  have hl : B.length = B.data.length := rfl
  by_cases hp : wcsncmp_eq N.data B.data B.length = true
  · have hp2 : B.data <+: N.data := (wcsncmp_eq_iff_starts B.data N.data).1 (hl ▸ hp)
    simp only [hp, Bool.not_true, Bool.false_eq_true, if_false, hp2, true_and]
    cases hg : wchar_at N B.length with
    | none => simp
    | some ch =>
      by_cases hc : ch = '.'
      · simp [hc]
      · simp [hc]
  · have hp2 : ¬ (B.data <+: N.data) := fun h =>
      hp (hl ▸ (wcsncmp_eq_iff_starts B.data N.data).2 h)
    simp only [hp, Bool.not_false, if_true, hp2, false_and]
    simp

theorem is_install_section_iff (N B : String) :
    is_install_section N B = true ↔
      (N = B ∨ (B.data <+: N.data ∧ wchar_at N B.length = some '.')) := by
  rw [is_install_section_eq]
  constructor
  · rintro ⟨hp, hn | hd⟩
    · left
      have := (prefix_get?_none_iff B.data N.data hp).1 hn
      exact String.ext this
    · exact Or.inr ⟨hp, hd⟩
  · rintro (rfl | ⟨hp, hd⟩)
    · refine ⟨List.prefix_refl _, Or.inl ?_⟩
      exact (prefix_get?_none_iff N.data N.data (List.prefix_refl _)).2 rfl
    · exact ⟨hp, Or.inr hd⟩

theorem enum_step_some (hinf : Inf) (N B : String) (cat_list : CatList) :
    enum_step hinf (some B) N cat_list =
      if is_install_section N B = true then
        copy_loop hinf (SetupFindLines hinf N (some "CopyFiles")) cat_list
      else some cat_list := by
  unfold enum_step
  by_cases h : is_install_section N B = true
  · simp only [h, Bool.not_true, Bool.false_eq_true, if_false, if_true]
    cases SetupFindLines hinf N (some "CopyFiles") <;> rfl
  · simp [h]

/-- C1: a section name `N` enumerated for install base `B` is treated as an install
section of `B` (its `CopyFiles` lines are resolved; otherwise the name is passed
over and nothing is appended) if and only if `N` equals `B`, or `N` starts with
`B` and the character of `N` right after that prefix is `.`.  Base `Foo` matches
`Foo` and `Foo.NTamd64` and does not match `Foo2`. -/
theorem install_section_match :
    (∀ N B : String, is_install_section N B = true ↔
        (N = B ∨ (B.data <+: N.data ∧ wchar_at N B.length = some '.'))) ∧
    (∀ (hinf : Inf) (N B : String) (cat_list : CatList),
        enum_step hinf (some B) N cat_list =
          if is_install_section N B = true then
            copy_loop hinf (SetupFindLines hinf N (some "CopyFiles")) cat_list
          else some cat_list) ∧
    is_install_section "Foo" "Foo" = true ∧
    is_install_section "Foo.NTamd64" "Foo" = true ∧
    is_install_section "Foo2" "Foo" = false :=
  ⟨is_install_section_iff, enum_step_some, by decide, by decide, by decide⟩

/-- C7 fails on the code: the matcher compares with `wcsncmp`, which does not fold
letter case, while every lookup of a section by name in the same walk does.  In
`case_inf` the device description names install base `foo` and the sections are
spelled `FOO` and `FOO.NTamd64`: a lookup of `foo` finds section `FOO` with its
`CopyFiles` line, the model section spelled `Models` is found under the name
`MODELS`, and yet the matcher passes both install sections over and `parse_inf`
resolves no file. -/
theorem install_section_case_bug :
    name_eq "FOO" "foo" = true ∧
    name_eq "FOO.NTamd64" ("foo" ++ "." ++ "NTamd64") = true ∧
    is_install_section "FOO" "foo" = false ∧
    is_install_section "FOO.NTamd64" "foo" = false ∧
    (find_section case_inf "foo").map InfSection.name = some "FOO" ∧
    SetupFindLines case_inf "foo" (some "CopyFiles") = [⟨some "CopyFiles", ["@a.sys"]⟩] ∧
    SetupFindLines case_inf "MODELS" none = [⟨some "Device", ["foo", "HW"]⟩] ∧
    parse_inf (some case_inf) [] none = some ⟨1, [], some "HW"⟩ ∧
    ¬ (∀ B N : String,
        (name_eq N B = true ∨ ∃ suffix : String, name_eq N (B ++ "." ++ suffix) = true) →
          is_install_section N B = true) := by
  refine ⟨by decide, by decide, by decide, by decide, by decide, by decide, by decide,
    by decide, ?_⟩
  intro h
  have h1 := h "foo" "FOO.NTamd64" (Or.inr ⟨"NTamd64", by decide⟩)
  revert h1
  decide

/-! ## The hardware id -/

theorem skip_star_cons (rest : List Char) : skip_star (String.mk ('*' :: rest)) = String.mk rest := by
  simp [skip_star, wchar_at]

theorem skip_star_other (v : String) (h : wchar_at v 0 ≠ some '*') : skip_star v = v := by
  simp [skip_star, h]

theorem field_count_of_field2 (c : InfLine) (v : String) (h : pSetupGetField c 2 = some v) :
    2 ≤ SetupGetFieldCount c := by
  have h1 : c.fields.get? 1 = some v := h
  rcases List.get?_eq_some.1 h1 with ⟨hlt, _⟩
  exact hlt

/-- C4: when the hardware id is taken from field 2 of a device-description line
(value `v`), the stored id is `v` with exactly one leading `*` removed if `v`
starts with `*`, and `v` unchanged otherwise: `*HW001` gives `HW001`, `**X` gives
`*X`, `HW001` gives `HW001`. -/
theorem hw_id_normalisation (c_desc : InfLine) (v : String)
    (hv : pSetupGetField c_desc 2 = some v) :
    update_hw_id c_desc none = some (some (skip_star v)) ∧
    (∀ rest : List Char, v.data = '*' :: rest → skip_star v = String.mk rest) ∧
    (wchar_at v 0 ≠ some '*' → skip_star v = v) ∧
    skip_star "*HW001" = "HW001" ∧ skip_star "**X" = "*X" ∧ skip_star "HW001" = "HW001" := by
  refine ⟨?_, ?_, skip_star_other v, by decide, by decide, by decide⟩
  · have hfc := field_count_of_field2 c_desc v hv
    simp [update_hw_id, hfc, wide_to_utf8, hv]
  · intro rest hr
    have : v = String.mk ('*' :: rest) := String.ext hr
    rw [this, skip_star_cons]

theorem hw_id_normalisation_witness :
    pSetupGetField ⟨some "Desc", ["Install1", "*HW001"]⟩ 2 = some "*HW001" ∧
    update_hw_id ⟨some "Desc", ["Install1", "*HW001"]⟩ none = some (some "HW001") :=
  ⟨by decide, (hw_id_normalisation ⟨some "Desc", ["Install1", "*HW001"]⟩ "*HW001" (by decide)).1⟩

/-! ## End to end -/

/-- C2: for the descriptor of the end-to-end example and every seeded file list `S`,
with no hardware id supplied, `parse_inf` succeeds (returns 1) with hardware id
`HW001` and file list `S` followed by `driver.sys`, `driver.cat`; the section
`Install1.Files` matches base `Install1` and appends nothing. -/
theorem end_to_end (S : CatList) :
    parse_inf (some example_inf) S none
      = some ⟨1, S ++ [some "driver.sys", some "driver.cat"], some "HW001"⟩ ∧
    is_install_section "Install1.Files" "Install1" = true ∧
    (∀ cat_list : CatList,
      enum_step example_inf (some "Install1") "Install1.Files" cat_list = some cat_list) := by
  refine ⟨?_, by decide, ?_⟩
  · rw [parse_inf_seed]
    have h : parse_inf (some example_inf) [] none
        = some ⟨1, [some "driver.sys", some "driver.cat"], some "HW001"⟩ := by decide
    rw [h]
    rfl
  · intro cat_list
    have h := enum_step_shift example_inf (some "Install1") cat_list "Install1.Files" []
    simp only [List.append_nil] at h
    rw [h]
    have h2 : enum_step example_inf (some "Install1") "Install1.Files" [] = some [] := by decide
    rw [h2]
    simp

/-! ## The resolution of `CopyFiles` directives -/

theorem SetupFindLines_none (hinf : Inf) (name : String) :
    SetupFindLines hinf name none =
      match find_section hinf name with
      | some s => s.lines
      | none => [] := by
  unfold SetupFindLines
  cases find_section hinf name <;> rfl

theorem SetupFindLines_copyfiles (hinf : Inf) (N : String) :
    SetupFindLines hinf N (some "CopyFiles") = copyfiles_lines hinf N := by
  unfold SetupFindLines copyfiles_lines
  cases find_section hinf N <;> rfl

theorem wchar_at_zero (v : String) : wchar_at v 0 = v.data.head? := by
  unfold wchar_at
  cases v.data <;> rfl

theorem copy_line_eq (hinf : Inf) (c : InfLine) (value : String) (cat_list : CatList)
    (hv : pSetupGetField c 1 = some value) :
    copy_line hinf c cat_list = some (cat_list ++ directive_files hinf value) := by
  unfold copy_line directive_files
  rw [hv]
  simp only [wchar_at_zero]
  by_cases h : value.data.head? = some '@'
  · simp [h, wide_to_utf8]
  · simp only [h, if_false]
    rw [SetupFindLines_none]
    cases find_section hinf value with
    | none => simp
    | some s =>
      simp only
      cases hl : s.lines with
      | nil => simp
      | cons c1 rest => simp [files_loop_eq]

theorem copy_loop_eq (hinf : Inf) (ls : List InfLine) (cat_list : CatList)
    (hf : ∀ c ∈ ls, (pSetupGetField c 1).isSome = true) :
    copy_loop hinf ls cat_list = some (cat_list ++ ls.flatMap (line_files hinf)) := by
  induction ls generalizing cat_list with
  | nil => simp [copy_loop, run_loop]
  | cons c rest ih =>
    have hc := hf c (List.mem_cons_self _ _)
    obtain ⟨value, hv⟩ := Option.isSome_iff_exists.1 hc
    unfold copy_loop at ih ⊢
    rw [run_loop_cons, copy_line_eq hinf c value cat_list hv]
    simp only [Option.some_bind]
    rw [ih _ (fun y hy => hf y (List.mem_cons_of_mem _ hy))]
    simp [line_files, hv]

/-- C3: a matched install section `N` appends the concatenation, over its lines keyed
`CopyFiles` in line order, of the filenames of field 1: the value without its
leading `@` when it starts with `@` (whatever the descriptor holds); otherwise the
field 1 of every line of the section it names, in line order; nothing when that
section is absent, and then the `CopyFiles` lines after it are still resolved.
Every `CopyFiles` line of `N` is taken to have a field 1. -/
theorem copyfiles_resolution (hinf : Inf) (B N : String) (cat_list : CatList)
    (hm : is_install_section N B = true)
    (hf : ∀ c ∈ copyfiles_lines hinf N, (pSetupGetField c 1).isSome = true) :
    enum_step hinf (some B) N cat_list = some (cat_list ++ section_files hinf N) ∧
    (∀ (hinf2 : Inf) (name : List Char),
        directive_files hinf2 (String.mk ('@' :: name)) = [some (String.mk name)]) ∧
    (∀ (value : String) (s : InfSection), value.data.head? ≠ some '@' →
        find_section hinf value = some s →
        directive_files hinf value = s.lines.map (fun c => pSetupGetField c 1)) ∧
    (∀ value : String, value.data.head? ≠ some '@' → find_section hinf value = none →
        directive_files hinf value = []) ∧
    (∀ (c : InfLine) (rest : List InfLine) (value : String) (cat : CatList),
        pSetupGetField c 1 = some value → value.data.head? ≠ some '@' →
        find_section hinf value = none →
        copy_loop hinf (c :: rest) cat = copy_loop hinf rest cat) := by
  refine ⟨?_, ?_, ?_, ?_, ?_⟩
  · rw [enum_step_some, if_pos hm, SetupFindLines_copyfiles, copy_loop_eq hinf _ _ hf]
    rfl
  · intro hinf2 name
    simp [directive_files]
  · intro value s h1 h2
    simp [directive_files, h1, h2]
  · intro value h1 h2
    simp [directive_files, h1, h2]
  · intro c rest value cat hv h1 h2
    unfold copy_loop
    rw [run_loop_cons, copy_line_eq hinf c value cat hv]
    simp [directive_files, h1, h2]

theorem copyfiles_resolution_witness :
    is_install_section "Inst.NT" "Inst" = true ∧
    (∀ c ∈ copyfiles_lines copyfiles_inf "Inst.NT", (pSetupGetField c 1).isSome = true) ∧
    enum_step copyfiles_inf (some "Inst") "Inst.NT" [some "x.inf"]
      = some [some "x.inf", some "a.sys", some "b.dll", some "c.cat"] :=
  ⟨by decide, by decide,
    (copyfiles_resolution copyfiles_inf "Inst" "Inst.NT" [some "x.inf"] (by decide) (by decide)).1.trans
      (by decide)⟩

/-! ## The hardware id along the walk -/

theorem field2_of_field_count (c : InfLine) (h : 2 ≤ SetupGetFieldCount c) :
    ∃ v, pSetupGetField c 2 = some v := by
  have hlt : 1 < c.fields.length := h
  exact ⟨c.fields.get ⟨1, hlt⟩, List.get?_eq_get hlt⟩

theorem update_hw_id_eq (c : InfLine) (hw_id : Option String) :
    update_hw_id c hw_id = some (hw_id.or (line_hw_id c)) := by
  unfold update_hw_id line_hw_id
  by_cases hfc : 2 ≤ SetupGetFieldCount c
  · obtain ⟨v, hv⟩ := field2_of_field_count c hfc
    cases hw_id with
    | none => simp [hfc, hv, wide_to_utf8]
    | some h => simp
  · cases hw_id with
    | none => simp [hfc]
    | some h => simp

theorem desc_line_eq (hinf : Inf) (c : InfLine) (st : Acc) :
    desc_line hinf c st =
      (enum_loop hinf (pSetupGetField c 1) (SetupEnumInfSections hinf) st.cat_list).map
        (fun cat_list1 => ⟨cat_list1, st.hw_id.or (line_hw_id c)⟩) := by
  unfold desc_line
  rw [update_hw_id_eq]
  cases enum_loop hinf (pSetupGetField c 1) (SetupEnumInfSections hinf) st.cat_list <;> rfl

theorem desc_line_hw (hinf : Inf) (c : InfLine) (st st1 : Acc)
    (h : desc_line hinf c st = some st1) : st1.hw_id = st.hw_id.or (line_hw_id c) := by
  rw [desc_line_eq] at h
  cases he : enum_loop hinf (pSetupGetField c 1) (SetupEnumInfSections hinf) st.cat_list with
  | none => simp [he] at h
  | some cat1 =>
    simp [he] at h
    rw [← h]

theorem option_or_assoc (a b c : Option String) : (a.or b).or c = a.or (b.or c) := by
  cases a <;> simp

/-- When every pass leaves the hardware id alone once it is set and otherwise sets
it to what its item offers, the loop ends with the first offer. -/
theorem run_loop_hw {α : Type} (body : α → Acc → Option Acc) (g : α → Option String)
    (hb : ∀ x st st1, body x st = some st1 → st1.hw_id = st.hw_id.or (g x))
    (xs : List α) (st st1 : Acc) (hr : run_loop body xs st = some st1) :
    st1.hw_id = st.hw_id.or (xs.findSome? g) := by
  induction xs generalizing st with
  | nil =>
    simp [run_loop] at hr
    simp [← hr]
  | cons x rest ih =>
    rw [run_loop_cons] at hr
    cases hx : body x st with
    | none => simp [hx] at hr
    | some st2 =>
      rw [hx] at hr
      have h1 := hb x st st2 hx
      have h2 := ih st2 hr
      rw [h2, h1, option_or_assoc]
      congr 1
      rw [List.findSome?_cons]
      cases g x <;> simp

theorem findSome?_flatMap {α β γ : Type} (g : α → List β) (p : β → Option γ) (xs : List α) :
    (xs.flatMap g).findSome? p = xs.findSome? (fun x => (g x).findSome? p) := by
  induction xs with
  | nil => rfl
  | cons x rest ih =>
    rw [List.flatMap_cons, List.findSome?_append, ih, List.findSome?_cons]
    cases (g x).findSome? p <;> simp

theorem desc_loop_hw (hinf : Inf) (ls : List InfLine) (st st1 : Acc)
    (h : desc_loop hinf ls st = some st1) :
    st1.hw_id = st.hw_id.or (ls.findSome? line_hw_id) :=
  run_loop_hw (desc_line hinf) line_hw_id (desc_line_hw hinf) ls st st1 h

theorem model_section_eq (hinf : Inf) (model : String) (st : Acc) :
    model_section hinf model st = desc_loop hinf (SetupFindLines hinf model none) st := by
  unfold model_section
  cases SetupFindLines hinf model none <;> rfl

theorem variant_step_hw (hinf : Inf) (c_man : InfLine) (f : Nat) (st st1 : Acc)
    (h : variant_step hinf c_man f st = some st1) :
    st1.hw_id = st.hw_id.or ((variant_lines hinf c_man f).findSome? line_hw_id) := by
  unfold variant_step at h
  unfold variant_lines
  cases hm : model_name c_man f with
  | none => simp [hm] at h
  | some model =>
    simp only [hm, model_section_eq] at h
    exact desc_loop_hw hinf _ st st1 h

theorem man_line_hw (hinf : Inf) (c_man : InfLine) (st st1 : Acc)
    (h : man_line hinf c_man st = some st1) :
    st1.hw_id = st.hw_id.or ((man_desc_lines hinf c_man).findSome? line_hw_id) := by
  unfold man_desc_lines
  rw [findSome?_flatMap]
  exact run_loop_hw (variant_step hinf c_man) _ (variant_step_hw hinf c_man) _ st st1 h

theorem man_loop_hw (hinf : Inf) (ls : List InfLine) (st st1 : Acc)
    (h : man_loop hinf ls st = some st1) :
    st1.hw_id = st.hw_id.or ((ls.flatMap (man_desc_lines hinf)).findSome? line_hw_id) := by
  rw [findSome?_flatMap]
  exact run_loop_hw (man_line hinf) _ (man_line_hw hinf) ls st st1 h

theorem parse_inf_eq (hinf : Inf) (cat_list : CatList) (hw_id : Option String) :
    parse_inf (some hinf) cat_list hw_id =
      match SetupFindLines hinf "Manufacturer" none with
      | [] => some ⟨0, cat_list, hw_id⟩
      | c_man :: rest =>
        (man_loop hinf (c_man :: rest) ⟨cat_list, hw_id⟩).map
          (fun st => ⟨1, st.cat_list, st.hw_id⟩) := by
  unfold parse_inf
  simp only
  cases SetupFindLines hinf "Manufacturer" none with
  | nil => rfl
  | cons c rest =>
    simp only
    cases man_loop hinf (c :: rest) ⟨cat_list, hw_id⟩ <;> rfl

/-- The hardware id of the result is the supplied one, or else the first offer in
walk order. -/
theorem parse_inf_hw (hinf : Inf) (cat_list : CatList) (hw_id : Option String) (r : ParseResult)
    (h : parse_inf (some hinf) cat_list hw_id = some r) :
    r.hw_id = hw_id.or ((walk_desc_lines hinf).findSome? line_hw_id) := by
  rw [parse_inf_eq] at h
  unfold walk_desc_lines
  cases hl : SetupFindLines hinf "Manufacturer" none with
  | nil =>
    simp [hl] at h
    simp [← h]
  | cons c rest =>
    simp only [hl] at h
    cases hm : man_loop hinf (c :: rest) ⟨cat_list, hw_id⟩ with
    | none => simp [hm] at h
    | some st =>
      simp [hm] at h
      have := man_loop_hw hinf (c :: rest) ⟨cat_list, hw_id⟩ st hm
      rw [← h]
      exact this

theorem findSome?_first {β γ : Type} (p : β → Option γ) (pre : List β) (c : β) (post : List β)
    (hpre : ∀ d ∈ pre, p d = none) :
    (pre ++ c :: post).findSome? p = (p c).or (post.findSome? p) := by
  induction pre with
  | nil =>
    rw [List.nil_append, List.findSome?_cons]
    cases p c <;> simp
  | cons d ds ih =>
    rw [List.cons_append, List.findSome?_cons, hpre d (List.mem_cons_self _ _)]
    exact ih (fun e he => hpre e (List.mem_cons_of_mem _ he))

/-! ## The model sections of a Manufacturer line -/

theorem variant_indices_ge_two (n : Nat) : variant_indices (n + 2) = List.range' 2 (n + 1) := by
  unfold variant_indices first_index
  have h : 1 < n + 2 := by omega
  rw [if_pos h]
  have h2 : n + 2 + 1 - 2 = n + 1 := by omega
  rw [h2]

theorem model_elems_eq : model_elems = 514 := rfl

theorem sizeof_model_eq : sizeof_model = 1028 := rfl

theorem string_mk_append (a b : String) : String.mk (a.data ++ b.data) = a ++ b :=
  String.ext (by simp [String.data_append])

/-- A string that fits the buffer is appended in full. -/
theorem wcsncat_s_fit (dst src : String) (h : (dst ++ src).length < model_elems) :
    wcsncat_s model_elems dst sizeof_model src = some (dst ++ src) := by
  have hl : (dst.data ++ src.data).length < model_elems := by
    rw [String.length_append] at h
    rw [List.length_append]
    exact h
  have ht : (dst.data ++ src.data).take (sizeof_model - 1) = dst.data ++ src.data := by
    apply List.take_of_length_le
    rw [model_elems_eq] at hl
    rw [sizeof_model_eq]
    omega
  unfold wcsncat_s
  simp only [ht, hl, if_true, string_mk_append]

/-- A string that does not fit the buffer `model` has no result. -/
theorem wcsncat_s_overflow (dst src : String) (h : model_elems ≤ (dst ++ src).length) :
    wcsncat_s model_elems dst sizeof_model src = none := by
  have hl : model_elems ≤ (dst.data ++ src.data).length := by
    rw [String.length_append] at h
    rw [List.length_append]
    exact h
  unfold wcsncat_s
  have h2 : ¬ ((dst.data ++ src.data).take (sizeof_model - 1)).length < model_elems := by
    rw [List.length_take, model_elems_eq, sizeof_model_eq]
    rw [model_elems_eq] at hl
    omega
  simp only [h2, if_false]

theorem model_name_base (c_man : InfLine) (base : String)
    (h1 : pSetupGetField c_man 1 = some base) (hfit : base.length < model_elems) :
    model_name c_man 1 = some base := by
  have hb : ("" ++ base).length < model_elems := by
    rw [String.length_append]
    have : "".length = 0 := rfl
    omega
  have he : "" ++ base = base := String.ext (by simp [String.data_append])
  unfold model_name
  simp only [h1, ne_eq, not_true_eq_false, if_false, wcsncat_s_fit "" base hb, he]

theorem model_name_decorated (c_man : InfLine) (f : Nat) (base t : String) (hf : f ≠ 1)
    (h1 : pSetupGetField c_man 1 = some base) (ht : pSetupGetField c_man f = some t)
    (hfit : (base ++ "." ++ t).length < model_elems) :
    model_name c_man f = some (base ++ "." ++ t) := by
  have hlen : (base ++ "." ++ t).length = base.length + 1 + t.length := by
    rw [String.length_append, String.length_append]
    rfl
  have hb : ("" ++ base).length < model_elems := by
    rw [String.length_append]
    have : "".length = 0 := rfl
    omega
  have he : "" ++ base = base := String.ext (by simp [String.data_append])
  have hd : (base ++ ".").length < model_elems := by
    rw [String.length_append]
    have : ".".length = 1 := rfl
    omega
  unfold model_name
  simp only [h1, hf, ne_eq, not_false_eq_true, if_true, ht, wcsncat_s_fit "" base hb, he,
    wcsncat_s_fit base "." hd, wcsncat_s_fit (base ++ ".") t hfit]

/-- A decorated name of 514 characters or more is not built. -/
theorem model_name_overflow (c_man : InfLine) (f : Nat) (base t : String) (hf : f ≠ 1)
    (h1 : pSetupGetField c_man 1 = some base) (ht : pSetupGetField c_man f = some t)
    (hlong : model_elems ≤ (base ++ "." ++ t).length) :
    model_name c_man f = none := by
  unfold model_name
  simp only [h1, hf, ne_eq, not_false_eq_true, if_true, ht]
  cases hw1 : wcsncat_s model_elems "" sizeof_model base with
  | none => rfl
  | some model1 =>
    have hb : ("" ++ base).length < model_elems := by
      by_contra hn
      rw [wcsncat_s_overflow "" base (by omega)] at hw1
      cases hw1
    have he : "" ++ base = base := String.ext (by simp [String.data_append])
    rw [wcsncat_s_fit "" base hb, he] at hw1
    cases hw1
    simp only
    cases hw2 : wcsncat_s model_elems base sizeof_model "." with
    | none => rfl
    | some model2 =>
      have hd : (base ++ ".").length < model_elems := by
        by_contra hn
        rw [wcsncat_s_overflow base "." (by omega)] at hw2
        cases hw2
      rw [wcsncat_s_fit base "." hd] at hw2
      cases hw2
      exact wcsncat_s_overflow (base ++ ".") t hlong

theorem long_model_name_no_result : model_name long_man_line 2 = none := by
  apply model_name_overflow long_man_line 2 (String.mk (List.replicate 300 'a'))
    (String.mk (List.replicate 300 'b')) (by decide) rfl rfl
  rw [String.length_append, String.length_append, model_elems_eq]
  show 514 ≤ (List.replicate 300 'a').length + ".".length + (List.replicate 300 'b').length
  rw [List.length_replicate, List.length_replicate]
  decide

theorem model_name_tag (key : Option String) (base : String) (pre : List String) (t : String)
    (rest : List String) (hfit : (base ++ "." ++ t).length < model_elems) :
    model_name ⟨key, base :: (pre ++ t :: rest)⟩ (pre.length + 2) = some (base ++ "." ++ t) := by
  have h1 : pre.length + 2 ≠ 1 := by omega
  have h2 : pSetupGetField ⟨key, base :: (pre ++ t :: rest)⟩ (pre.length + 2) = some t := by
    show (pre ++ t :: rest).get? pre.length = some t
    clear h1
    induction pre with
    | nil => rfl
    | cons x xs ih => exact ih
  exact model_name_decorated _ _ base t h1 rfl h2 hfit

theorem models_tried_tags (key : Option String) (base : String) (ts pre : List String)
    (hfit : ∀ t ∈ ts, (base ++ "." ++ t).length < model_elems) :
    (List.range' (pre.length + 2) ts.length).map (model_name ⟨key, base :: (pre ++ ts)⟩)
      = ts.map (fun t => some (base ++ "." ++ t)) := by
  induction ts generalizing pre with
  | nil => rfl
  | cons t rest ih =>
    rw [List.length_cons, List.range'_succ, List.map_cons, List.map_cons,
      model_name_tag key base pre t rest (hfit t (List.mem_cons_self _ _))]
    have h := ih (pre ++ [t]) (fun u hu => hfit u (List.mem_cons_of_mem _ hu))
    rw [List.length_append, List.length_singleton, List.append_assoc, List.singleton_append] at h
    rw [show pre.length + 2 + 1 = pre.length + 1 + 2 by omega, h]

theorem models_tried_eq (key : Option String) (base : String) (tags : List String)
    (hfit : ∀ m ∈ model_candidates base tags, m.length < model_elems) :
    models_tried ⟨key, base :: tags⟩ = (model_candidates base tags).map some := by
  cases tags with
  | nil =>
    have hb : base.length < model_elems := hfit base (List.mem_singleton.2 rfl)
    show [model_name ⟨key, [base]⟩ 1] = [some base]
    rw [model_name_base ⟨key, [base]⟩ base rfl hb]
  | cons t ts =>
    unfold models_tried
    have hfc : SetupGetFieldCount ⟨key, base :: t :: ts⟩ = ts.length + 2 := rfl
    rw [hfc, variant_indices_ge_two]
    have hf2 : ∀ u ∈ t :: ts, (base ++ "." ++ u).length < model_elems := by
      intro u hu
      exact hfit _ (List.mem_map.2 ⟨u, hu, rfl⟩)
    have h := models_tried_tags key base (t :: ts) [] hf2
    simp only [List.length_nil, Nat.zero_add, List.nil_append, List.length_cons] at h
    rw [h]
    unfold model_candidates
    rw [List.map_map]
    rfl

theorem run_loop_map {α β σ : Type} (body : β → σ → Option σ) (g : α → β) (xs : List α) (st : σ) :
    run_loop body (xs.map g) st = run_loop (fun x => body (g x)) xs st := by
  induction xs generalizing st with
  | nil => rfl
  | cons x rest ih =>
    rw [List.map_cons, run_loop_cons, run_loop_cons]
    cases body (g x) st with
    | none => rfl
    | some st1 => simpa using ih st1

theorem man_line_eq (hinf : Inf) (key : Option String) (base : String) (tags : List String)
    (st : Acc) (hfit : ∀ m ∈ model_candidates base tags, m.length < model_elems) :
    man_line hinf ⟨key, base :: tags⟩ st
      = run_loop (model_section hinf) (model_candidates base tags) st := by
  have h1 : man_line hinf ⟨key, base :: tags⟩ st
      = run_loop (model_section_opt hinf) (models_tried ⟨key, base :: tags⟩) st := by
    unfold man_line variant_loop models_tried
    rw [run_loop_map]
    rfl
  rw [h1, models_tried_eq key base tags hfit, run_loop_map]
  rfl

theorem isSome_map_eq {α β : Type} (f : α → β) (o : Option α) :
    (Option.map f o).isSome = o.isSome := by
  cases o <;> rfl

theorem find_section_mem (hinf : Inf) (name : String) (s : InfSection)
    (h : find_section hinf name = some s) : s ∈ hinf :=
  List.mem_of_find?_eq_some h

theorem SetupFindLines_mem (hinf : Inf) (name : String) (key : Option String) (c : InfLine)
    (h : c ∈ SetupFindLines hinf name key) : ∃ s ∈ hinf, c ∈ s.lines := by
  unfold SetupFindLines at h
  cases hs : find_section hinf name with
  | none => simp [hs] at h
  | some s =>
    refine ⟨s, find_section_mem hinf name s hs, ?_⟩
    cases key with
    | none => simpa [hs] using h
    | some k =>
      simp only [hs] at h
      exact (List.mem_filter.1 h).1

theorem field1_of_lines_have_field1 (hinf : Inf) (hwf : lines_have_field1 hinf = true)
    (s : InfSection) (hs : s ∈ hinf) (c : InfLine) (hc : c ∈ s.lines) :
    (pSetupGetField c 1).isSome = true := by
  unfold lines_have_field1 at hwf
  rw [List.all_eq_true] at hwf
  have h1 := hwf s hs
  rw [List.all_eq_true] at h1
  exact h1 c hc

theorem field1_of_found (hinf : Inf) (hwf : lines_have_field1 hinf = true) (name : String)
    (key : Option String) (c : InfLine) (h : c ∈ SetupFindLines hinf name key) :
    (pSetupGetField c 1).isSome = true := by
  obtain ⟨s, hs, hc⟩ := SetupFindLines_mem hinf name key c h
  exact field1_of_lines_have_field1 hinf hwf s hs c hc

theorem enum_step_isSome (hinf : Inf) (hwf : lines_have_field1 hinf = true) (inst bufW : String)
    (cat_list : CatList) : (enum_step hinf (some inst) bufW cat_list).isSome = true := by
  rw [enum_step_some]
  by_cases h : is_install_section bufW inst = true
  · rw [if_pos h, copy_loop_eq hinf _ _ (fun c hc => field1_of_found hinf hwf _ _ c hc)]
    rfl
  · rw [if_neg h]
    rfl

theorem desc_line_isSome (hinf : Inf) (hwf : lines_have_field1 hinf = true) (c : InfLine)
    (hc : (pSetupGetField c 1).isSome = true) (st : Acc) :
    (desc_line hinf c st).isSome = true := by
  rw [desc_line_eq]
  obtain ⟨inst, hi⟩ := Option.isSome_iff_exists.1 hc
  rw [hi, isSome_map_eq]
  exact run_loop_isSome (enum_step hinf (some inst)) _
    (fun bufW _ cat => enum_step_isSome hinf hwf inst bufW cat) st.cat_list

theorem model_section_isSome (hinf : Inf) (hwf : lines_have_field1 hinf = true) (model : String)
    (st : Acc) : (model_section hinf model st).isSome = true := by
  rw [model_section_eq]
  exact run_loop_isSome (desc_line hinf) _
    (fun c hc st1 => desc_line_isSome hinf hwf c (field1_of_found hinf hwf _ _ c hc) st1) st

theorem man_line_isSome (hinf : Inf) (hwf : lines_have_field1 hinf = true) (c_man : InfLine)
    (hc : (pSetupGetField c_man 1).isSome = true) (hfit : line_fits c_man = true) (st : Acc) :
    (man_line hinf c_man st).isSome = true := by
  obtain ⟨key, fields⟩ := c_man
  cases fields with
  | nil => cases hc
  | cons base tags =>
    have hf : ∀ m ∈ model_candidates base tags, m.length < model_elems := by
      intro m hm
      have hall : (model_candidates base tags).all (fun m => m.length < model_elems) = true :=
        hfit
      have := List.all_eq_true.1 hall m hm
      simpa using this
    rw [man_line_eq hinf key base tags st hf]
    exact run_loop_isSome (model_section hinf) _
      (fun m _ st1 => model_section_isSome hinf hwf m st1) st

theorem parse_inf_isSome (hinf : Inf) (hwf : lines_have_field1 hinf = true)
    (hfit : model_names_fit hinf = true) (cat_list : CatList)
    (hw_id : Option String) : (parse_inf (some hinf) cat_list hw_id).isSome = true := by
  rw [parse_inf_eq]
  cases hl : SetupFindLines hinf "Manufacturer" none with
  | nil => rfl
  | cons c rest =>
    simp only [isSome_map_eq]
    refine run_loop_isSome (man_line hinf) _ (fun c_man hcm st1 => ?_) _
    have hmem : c_man ∈ SetupFindLines hinf "Manufacturer" none := hl ▸ hcm
    exact man_line_isSome hinf hwf c_man
      (field1_of_found hinf hwf "Manufacturer" none c_man hmem)
      (List.all_eq_true.1 hfit c_man hmem) st1

/-- C5: the hardware id is set once.  A device-description line met with the id
already set leaves it as it is; a supplied hardware id is the hardware id of the
result of `parse_inf`, for every descriptor (opened or not); with none supplied,
the result carries the id of the first line in walk order (Manufacturer line,
variant, device-description line) that has fields 1 and 2.  `parse_inf` has a
result whenever every line of the descriptor has a field 1 and the candidate
model-section names fit the buffer `model`. -/
theorem hw_id_set_once (hinf : Inf) (S : CatList) :
    (∀ (c_desc : InfLine) (cat_list : CatList) (h : String) (st1 : Acc),
        desc_line hinf c_desc ⟨cat_list, some h⟩ = some st1 → st1.hw_id = some h) ∧
    (∀ (h : String) (r : ParseResult),
        parse_inf (some hinf) S (some h) = some r → r.hw_id = some h) ∧
    (∀ h : String, parse_inf none S (some h) = some ⟨0, S, some h⟩) ∧
    (∀ (pre post : List InfLine) (c : InfLine) (r : ParseResult),
        walk_desc_lines hinf = pre ++ c :: post →
        (∀ d ∈ pre, SetupGetFieldCount d < 2) → 2 ≤ SetupGetFieldCount c →
        parse_inf (some hinf) S none = some r →
        r.hw_id = (pSetupGetField c 2).map skip_star ∧ r.hw_id.isSome = true) ∧
    (lines_have_field1 hinf = true → model_names_fit hinf = true →
        ∀ hw_id : Option String, (parse_inf (some hinf) S hw_id).isSome = true) := by
  refine ⟨?_, ?_, ?_, ?_, ?_⟩
  · intro c_desc cat_list h st1 hd
    have := desc_line_hw hinf c_desc _ st1 hd
    simpa using this
  · intro h r hr
    have := parse_inf_hw hinf S (some h) r hr
    simpa using this
  · intro h
    rfl
  · intro pre post c r hw hpre hc hr
    have h1 := parse_inf_hw hinf S none r hr
    have hnone : ∀ d ∈ pre, line_hw_id d = none := by
      intro d hd
      have := hpre d hd
      unfold line_hw_id
      rw [if_neg (by omega)]
    obtain ⟨v, hv⟩ := field2_of_field_count c hc
    have hoffer : line_hw_id c = some (skip_star v) := by
      unfold line_hw_id
      rw [if_pos hc, hv]
      rfl
    rw [hw, findSome?_first line_hw_id pre c post hnone, hoffer] at h1
    simp at h1
    rw [h1, hv]
    exact ⟨rfl, rfl⟩
  · intro hwf hfit hw_id
    exact parse_inf_isSome hinf hwf hfit S hw_id

theorem hw_id_set_once_witness :
    walk_desc_lines two_ids_inf
      = [⟨some "NoId", ["InstA"]⟩] ++ ⟨some "First", ["InstA", "*HW1"]⟩ ::
          [⟨some "Second", ["InstB", "HW2"]⟩] ∧
    (∀ d ∈ [(⟨some "NoId", ["InstA"]⟩ : InfLine)], SetupGetFieldCount d < 2) ∧
    2 ≤ SetupGetFieldCount ⟨some "First", ["InstA", "*HW1"]⟩ ∧
    parse_inf (some two_ids_inf) [] none
      = some ⟨1, [some "a.sys", some "a.sys", some "b.sys"], some "HW1"⟩ ∧
    (some "HW1" : Option String)
      = (pSetupGetField ⟨some "First", ["InstA", "*HW1"]⟩ 2).map skip_star ∧
    parse_inf (some two_ids_inf) [] (some "GIVEN")
      = some ⟨1, [some "a.sys", some "a.sys", some "b.sys"], some "GIVEN"⟩ ∧
    lines_have_field1 two_ids_inf = true ∧
    model_names_fit two_ids_inf = true ∧
    (parse_inf (some two_ids_inf) [] (some "GIVEN")).isSome = true :=
  ⟨by decide, by decide, by decide, by decide,
    ((hw_id_set_once two_ids_inf []).2.2.2.1 [⟨some "NoId", ["InstA"]⟩]
      [⟨some "Second", ["InstB", "HW2"]⟩] ⟨some "First", ["InstA", "*HW1"]⟩
      ⟨1, [some "a.sys", some "a.sys", some "b.sys"], some "HW1"⟩
      (by decide) (by decide) (by decide) (by decide)).1,
    by decide, by decide, by decide,
    (hw_id_set_once two_ids_inf []).2.2.2.2 (by decide) (by decide) (some "GIVEN")⟩

/-- C9: a device-description line sets the hardware id if and only if the id is not
yet set and the line has at least 3 fields counting the label (field 0, which
`SetupGetFieldCount` does not count; fields 1 and 2 are the install base and the
hardware id), that is, when it has a field 2; it is then field 2 without one
leading `*`, and a line with fewer fields leaves the id as it was.  Whatever the
hardware id, field 1 of the line is the install base whose sections are
enumerated and whose files are appended. -/
theorem hw_id_condition (hinf : Inf) (c_desc : InfLine) (st : Acc) :
    ∃ hw_id1 : Option String,
      update_hw_id c_desc st.hw_id = some hw_id1 ∧
      (hw_id1 ≠ st.hw_id ↔ (st.hw_id = none ∧ 3 ≤ SetupGetFieldCount c_desc + 1)) ∧
      (3 ≤ SetupGetFieldCount c_desc + 1 ↔ (pSetupGetField c_desc 2).isSome = true) ∧
      (st.hw_id = none → 3 ≤ SetupGetFieldCount c_desc + 1 →
        hw_id1 = (pSetupGetField c_desc 2).map skip_star ∧ hw_id1.isSome = true) ∧
      (SetupGetFieldCount c_desc + 1 < 3 → hw_id1 = st.hw_id) ∧
      desc_line hinf c_desc st =
        (enum_loop hinf (pSetupGetField c_desc 1) (SetupEnumInfSections hinf) st.cat_list).map
          (fun cat_list1 => ⟨cat_list1, hw_id1⟩) := by
  refine ⟨st.hw_id.or (line_hw_id c_desc), update_hw_id_eq c_desc st.hw_id, ?_, ?_, ?_, ?_,
    desc_line_eq hinf c_desc st⟩
  · by_cases hfc : 2 ≤ SetupGetFieldCount c_desc
    · obtain ⟨v, hv⟩ := field2_of_field_count c_desc hfc
      have hoffer : line_hw_id c_desc = some (skip_star v) := by
        unfold line_hw_id
        rw [if_pos hfc, hv]
        rfl
      rw [hoffer]
      cases st.hw_id with
      | none => simp; omega
      | some h => simp
    · have hoffer : line_hw_id c_desc = none := by
        unfold line_hw_id
        rw [if_neg hfc]
      rw [hoffer]
      cases st.hw_id with
      | none => simp; omega
      | some h => simp
  · constructor
    · intro hfc
      obtain ⟨v, hv⟩ := field2_of_field_count c_desc (by omega)
      rw [hv]
      rfl
    · intro hs
      obtain ⟨v, hv⟩ := Option.isSome_iff_exists.1 hs
      have := field_count_of_field2 c_desc v hv
      omega
  · intro hn hfc
    have hfc2 : 2 ≤ SetupGetFieldCount c_desc := by omega
    obtain ⟨v, hv⟩ := field2_of_field_count c_desc hfc2
    rw [hn]
    unfold line_hw_id
    rw [if_pos hfc2, hv]
    exact ⟨rfl, rfl⟩
  · intro hfc
    have hfc2 : ¬ 2 ≤ SetupGetFieldCount c_desc := by omega
    unfold line_hw_id
    rw [if_neg hfc2]
    cases st.hw_id <;> rfl

theorem hw_id_condition_witness :
    3 ≤ SetupGetFieldCount ⟨some "First", ["InstA", "*HW1"]⟩ + 1 ∧
    ∃ hw_id1 : Option String,
      update_hw_id ⟨some "First", ["InstA", "*HW1"]⟩ none = some hw_id1 ∧
      hw_id1 = some "HW1" ∧
      desc_line two_ids_inf ⟨some "First", ["InstA", "*HW1"]⟩ ⟨[], none⟩
        = some ⟨[some "a.sys"], hw_id1⟩ := by
  obtain ⟨hw_id1, h1, _, _, h3, _, h5⟩ :=
    hw_id_condition two_ids_inf ⟨some "First", ["InstA", "*HW1"]⟩ ⟨[], none⟩
  have h4 : hw_id1 = some "HW1" := (h3 rfl (by decide)).1.trans (by decide)
  refine ⟨by decide, hw_id1, h1, h4, ?_⟩
  rw [h5, h4]
  decide

/-! ## The root section -/

theorem find_section_none_of_no_name (hinf : Inf) (name : String)
    (h : ∀ s ∈ hinf, name_eq s.name name = false) : find_section hinf name = none := by
  unfold find_section
  rw [List.find?_eq_none]
  intro s hs
  simp [h s hs]

/-- C6: for a descriptor that has no section named `Manufacturer` (up to letter
case), or whose `Manufacturer` section has no line, `parse_inf` returns 0 and the
file list and the hardware id are those the caller passed in. -/
theorem root_absence (hinf : Inf) (S : CatList) (hw_id : Option String)
    (h : (∀ s ∈ hinf, name_eq s.name "Manufacturer" = false) ∨
         (∃ s, find_section hinf "Manufacturer" = some s ∧ s.lines = [])) :
    parse_inf (some hinf) S hw_id = some ⟨0, S, hw_id⟩ := by
  have hl : SetupFindLines hinf "Manufacturer" none = [] := by
    rw [SetupFindLines_none]
    rcases h with h | ⟨s, hs, hlines⟩
    · rw [find_section_none_of_no_name hinf _ h]
    · rw [hs]
      exact hlines
  rw [parse_inf_eq, hl]

theorem root_absence_witness :
    ((∀ s ∈ ([⟨"Version", [⟨some "Signature", ["$Windows NT$"]⟩]⟩] : Inf),
        name_eq s.name "Manufacturer" = false) ∨
      (∃ s, find_section [⟨"Version", [⟨some "Signature", ["$Windows NT$"]⟩]⟩] "Manufacturer"
          = some s ∧ s.lines = [])) ∧
    parse_inf (some [⟨"Version", [⟨some "Signature", ["$Windows NT$"]⟩]⟩]) [] none
      = some ⟨0, [], none⟩ ∧
    parse_inf (some [⟨"manufacturer", []⟩, ⟨"Models", [⟨some "D", ["Inst", "HW"]⟩]⟩])
        [some "x.inf"] (some "GIVEN")
      = some ⟨0, [some "x.inf"], some "GIVEN"⟩ :=
  ⟨Or.inl (by decide),
    root_absence [⟨"Version", [⟨some "Signature", ["$Windows NT$"]⟩]⟩] [] none
      (Or.inl (by decide)),
    root_absence [⟨"manufacturer", []⟩, ⟨"Models", [⟨some "D", ["Inst", "HW"]⟩]⟩]
      [some "x.inf"] (some "GIVEN") (Or.inr ⟨⟨"manufacturer", []⟩, by decide, rfl⟩)⟩

/-! ## The capacity of the output storage -/

theorem args_loop_eq (args : List String) (cat_list : CatList) :
    args_loop args cat_list = cat_list ++ args.map (fun a => some (file_arg a)) := by
  induction args generalizing cat_list with
  | nil => simp [args_loop]
  | cons a rest ih => simp [args_loop, ih]

/-- C10 fails on the code: nothing compares the entry count with the 129 slots of
`cat_list`.  On a descriptor whose file-list section has 130 lines `parse_inf`
stores 130 entries, the last one at index 129, and `main` does the same with 130
file arguments: it stores one entry for every file argument, however many. -/
theorem cat_list_overflow :
    cat_list_slots = 129 ∧
    (parse_inf (some overflow_inf) [] none).map (fun r => (r.rc, r.cat_list.length))
      = some (1, 130) ∧
    main (fun _ => none) overflow_options
      = some (.create_cat none (List.replicate 130 (some "a.sys"))) ∧
    ¬ (130 ≤ cat_list_slots) ∧
    (∀ (cat_path drv_path : String) (hw_id : Option String) (files : List String),
      main (fun _ => none) ⟨some cat_path, some drv_path, none, hw_id, files⟩
        = some (.create_cat hw_id (files.map (fun a => some (file_arg a))))) := by
  refine ⟨rfl, ?_, ?_, by decide, ?_⟩
  · have h : parse_inf (some overflow_inf) [] none
        = some ⟨1, List.replicate 130 (some "a.sys"), some "HW"⟩ := by decide
    rw [h]
    rfl
  · decide
  · intro cat_path drv_path hw_id files
    simp [main, args_loop_eq]


end Catgen
